import Mathlib

/-!
Verification of the indicator / rule / simulation core of the ai-trading-os
backend (`app/services/indicator_service.py` and the `simulate_bot` endpoint in
`app/api/v1/bots.py`).

Modelling conventions:
* Python floats are modelled as exact rational arithmetic (`ℚ`); the single use
  of `math.sqrt` (Bollinger Bands) is modelled over `ℝ` with `Real.sqrt`.
* Python's `round(x, n)` is modelled as `roundTo n` (round to `n` decimal
  places).
* `Optional[float]` results (`None` on insufficient data) are modelled as
  `Option ℚ`.
* Bar indices handed to the cache are modelled as `ℤ`, since the Python code
  relies on `bar_index - period` going negative to signal "before warm-up".
-/

/-- `round(x, d)` from Python: round to `d` decimal places. -/
def roundTo (d : ℕ) (x : ℚ) : ℚ :=
  ((round (x * 10 ^ d) : ℤ) : ℚ) / 10 ^ d

namespace IndicatorService

/-- `IndicatorService.calculate_sma`: mean of the last `period` prices,
`None` if there are fewer than `period` prices. -/
def calculate_sma (prices : List ℚ) (period : ℕ) : Option ℚ :=
  if prices.length < period then none
  else some ((prices.drop (prices.length - period)).sum / period)

/-- One step of the EMA fold: `ema = price * k + ema * (1 - k)`. -/
def emaStep (k : ℚ) (ema price : ℚ) : ℚ :=
  price * k + ema * (1 - k)

/-- `IndicatorService.calculate_ema`: seed with the SMA of the first `period`
prices, then fold the EMA recurrence over the remaining prices. -/
def calculate_ema (prices : List ℚ) (period : ℕ) (smoothing : ℚ := 2) :
    Option ℚ :=
  if prices.length < period then none
  else
    let k := smoothing / ((period : ℚ) + 1)
    some ((prices.drop period).foldl (emaStep k)
      ((prices.take period).sum / period))

/-- `IndicatorService.calculate_ema_series`: the list of every intermediate
EMA value (the Python loop appends the seed SMA first and then one value per
remaining price, which is exactly `List.scanl`). -/
def calculate_ema_series (prices : List ℚ) (period : ℕ) (smoothing : ℚ := 2) :
    List ℚ :=
  if prices.length < period then []
  else
    let k := smoothing / ((period : ℚ) + 1)
    List.scanl (emaStep k) ((prices.take period).sum / period)
      (prices.drop period)

/-- `changes = [prices[i] - prices[i-1] for i in range(1, len(prices))]`. -/
def priceChanges (prices : List ℚ) : List ℚ :=
  List.zipWith (· - ·) (prices.drop 1) prices

/-- `max(0, change)`. -/
def gainOf (c : ℚ) : ℚ := max 0 c

/-- `abs(min(0, change))`. -/
def lossOf (c : ℚ) : ℚ := |min 0 c|

/-- Wilder's smoothing step: `avg = (avg * (period - 1) + x) / period`. -/
def wilderStep (period : ℕ) (avg x : ℚ) : ℚ :=
  (avg * ((period : ℚ) - 1) + x) / period

/-- One simultaneous Wilder step on the (average gain, average loss) pair.
The Python loop walks `gains[i]`/`losses[i]` for the same index `i`, which is
the `List.zip` of the two (equal-length) lists. -/
def rsiStep (period : ℕ) (a : ℚ × ℚ) (gl : ℚ × ℚ) : ℚ × ℚ :=
  (wilderStep period a.1 gl.1, wilderStep period a.2 gl.2)

/-- The final RSI computation from the smoothed averages, including the
`avg_loss == 0` special cases; only the generic branch is rounded to two
decimals (as in the source). -/
def rsiValue (avg_gain avg_loss : ℚ) : ℚ :=
  if avg_loss = 0 then (if 0 < avg_gain then 100 else 50)
  else roundTo 2 (100 - 100 / (1 + avg_gain / avg_loss))

/-- Initial (average gain, average loss): simple means of the first `period`
gains and losses. -/
def rsiInit (gains losses : List ℚ) (period : ℕ) : ℚ × ℚ :=
  ((gains.take period).sum / period, (losses.take period).sum / period)

/-- `gains = [max(0, change) for change in changes]`. -/
def rsiGains (prices : List ℚ) : List ℚ :=
  (priceChanges prices).map gainOf

/-- `losses = [abs(min(0, change)) for change in changes]`. -/
def rsiLosses (prices : List ℚ) : List ℚ :=
  (priceChanges prices).map lossOf

/-- The (average gain, average loss) pair after the full Wilder smoothing loop
(`for i in range(period, len(gains))`). -/
def rsiFinalState (prices : List ℚ) (period : ℕ) : ℚ × ℚ :=
  (((rsiGains prices).drop period).zip ((rsiLosses prices).drop period)).foldl
    (rsiStep period) (rsiInit (rsiGains prices) (rsiLosses prices) period)

/-- `IndicatorService.calculate_rsi` (Wilder's smoothing). -/
def calculate_rsi (prices : List ℚ) (period : ℕ := 14) : Option ℚ :=
  if prices.length < period + 1 then none
  else
    some (rsiValue (rsiFinalState prices period).1 (rsiFinalState prices period).2)

/-- Every intermediate (average gain, average loss) state of the smoothing
loop, the initial averages first. -/
def rsiStates (prices : List ℚ) (period : ℕ) : List (ℚ × ℚ) :=
  List.scanl (rsiStep period) (rsiInit (rsiGains prices) (rsiLosses prices) period)
    (((rsiGains prices).drop period).zip ((rsiLosses prices).drop period))

/-- `IndicatorService.calculate_rsi_series`: one RSI value per smoothing state,
starting from the initial averages (the Python loop appends the first RSI and
then one per further index, i.e. `rsiValue` mapped over the `List.scanl` of the
states). -/
def calculate_rsi_series (prices : List ℚ) (period : ℕ := 14) : List ℚ :=
  if prices.length < period + 1 then []
  else (rsiStates prices period).map (fun a => rsiValue a.1 a.2)

end IndicatorService

/-- `MACDResult` dataclass. -/
structure MACDResult where
  macd_line : ℚ
  signal_line : ℚ
  histogram : ℚ
deriving DecidableEq

namespace IndicatorService

/-- `macd_series`: the elementwise difference of the aligned fast EMA series
(the first `slow_period - fast_period` entries dropped) and the slow EMA
series.  The Python slice `fast_ema_series[offset:]` is translated with
`offset = slow_period - fast_period` as a natural number, i.e. the embedding
covers the `fast_period ≤ slow_period` regime (Python's negative-slice
behavior for `fast_period > slow_period` is outside every stated claim). -/
def macdSeries (prices : List ℚ) (fast_period slow_period : ℕ) : List ℚ :=
  List.zipWith (· - ·)
    ((calculate_ema_series prices fast_period).drop (slow_period - fast_period))
    (calculate_ema_series prices slow_period)

/-- `signal_series = calculate_ema_series(macd_series, signal_period)`. -/
def macdSignalSeries (prices : List ℚ) (fast_period slow_period signal_period : ℕ) :
    List ℚ :=
  calculate_ema_series (macdSeries prices fast_period slow_period) signal_period

/-- `IndicatorService.calculate_macd` body, after the guards: the last MACD
and signal values, each rounded to four decimals, and their rounded
difference. -/
def macdResultOf (prices : List ℚ) (fast_period slow_period signal_period : ℕ) :
    MACDResult :=
  ⟨roundTo 4 ((macdSeries prices fast_period slow_period).getLastD 0),
   roundTo 4 ((macdSignalSeries prices fast_period slow_period signal_period).getLastD 0),
   roundTo 4 ((macdSeries prices fast_period slow_period).getLastD 0 -
     (macdSignalSeries prices fast_period slow_period signal_period).getLastD 0)⟩

/-- `IndicatorService.calculate_macd`: fails on insufficient data (fewer than
`slow_period + signal_period` prices), empty EMA series, a MACD series shorter
than the signal period, or an empty signal series. -/
def calculate_macd (prices : List ℚ) (fast_period : ℕ := 12)
    (slow_period : ℕ := 26) (signal_period : ℕ := 9) : Option MACDResult :=
  if prices.length < slow_period + signal_period then none
  else if (calculate_ema_series prices fast_period).isEmpty ∨
      (calculate_ema_series prices slow_period).isEmpty then none
  else if (macdSeries prices fast_period slow_period).length < signal_period then none
  else if (macdSignalSeries prices fast_period slow_period signal_period).isEmpty then none
  else some (macdResultOf prices fast_period slow_period signal_period)

end IndicatorService

/-- `BollingerResult` dataclass. Its fields live in `ℝ` because the source
computes the band width with `math.sqrt`. -/
structure BollingerResult where
  upper : ℝ
  middle : ℝ
  lower : ℝ
  bandwidth : ℝ

/-- `round(x, 4)` over the reals (for the Bollinger fields). -/
noncomputable def roundTo4R (x : ℝ) : ℝ :=
  ((round (x * 10 ^ 4) : ℤ) : ℝ) / 10 ^ 4

namespace IndicatorService

/-- `recent_prices = prices[-period:]`. -/
def bollingerRecent (prices : List ℚ) (period : ℕ) : List ℚ :=
  prices.drop (prices.length - period)

/-- `middle = sum(recent_prices) / period` (the SMA of the window). -/
def bollingerMiddle (prices : List ℚ) (period : ℕ) : ℚ :=
  (bollingerRecent prices period).sum / period

/-- `variance = sum((p - middle) ** 2 for p in recent_prices) / period`
(population variance). -/
def bollingerVariance (prices : List ℚ) (period : ℕ) : ℚ :=
  ((bollingerRecent prices period).map
    (fun p => (p - bollingerMiddle prices period) ^ 2)).sum / period

/-- `std = math.sqrt(variance)`. -/
noncomputable def bollingerStd (prices : List ℚ) (period : ℕ) : ℝ :=
  Real.sqrt (bollingerVariance prices period)

/-- `upper = middle + std_dev * std`. -/
noncomputable def bollingerUpper (prices : List ℚ) (period : ℕ) (std_dev : ℚ) : ℝ :=
  (bollingerMiddle prices period : ℝ) + (std_dev : ℝ) * bollingerStd prices period

/-- `lower = middle - std_dev * std`. -/
noncomputable def bollingerLower (prices : List ℚ) (period : ℕ) (std_dev : ℚ) : ℝ :=
  (bollingerMiddle prices period : ℝ) - (std_dev : ℝ) * bollingerStd prices period

/-- `IndicatorService.calculate_bollinger_bands`: middle band is the SMA of the
last `period` prices, the bands sit `std_dev` population standard deviations
above/below it; `bandwidth = (upper - lower) / middle` (0 when the middle is
0); all four fields are rounded to four decimals. -/
noncomputable def calculate_bollinger_bands (prices : List ℚ) (period : ℕ := 20)
    (std_dev : ℚ := 2) : Option BollingerResult :=
  if prices.length < period then none
  else
    some ⟨roundTo4R (bollingerUpper prices period std_dev),
      roundTo4R (bollingerMiddle prices period : ℝ),
      roundTo4R (bollingerLower prices period std_dev),
      roundTo4R (if bollingerMiddle prices period ≠ 0 then
        (bollingerUpper prices period std_dev - bollingerLower prices period std_dev) /
          (bollingerMiddle prices period : ℝ)
      else 0)⟩

end IndicatorService

namespace CrossesDetector

/-- `CrossesDetector.crosses_above`: `previous <= threshold and current > threshold`. -/
def crosses_above (current_value previous_value threshold : ℚ) : Bool :=
  decide (previous_value ≤ threshold) && decide (threshold < current_value)

/-- `CrossesDetector.crosses_below`: `previous >= threshold and current < threshold`. -/
def crosses_below (current_value previous_value threshold : ℚ) : Bool :=
  decide (threshold ≤ previous_value) && decide (current_value < threshold)

/-- `CrossesDetector.indicator_crosses_above`. -/
def indicator_crosses_above (current_value previous_value current_other
    previous_other : ℚ) : Bool :=
  decide (previous_value ≤ previous_other) && decide (current_other < current_value)

/-- `CrossesDetector.indicator_crosses_below`. -/
def indicator_crosses_below (current_value previous_value current_other
    previous_other : ℚ) : Bool :=
  decide (previous_other ≤ previous_value) && decide (current_value < current_other)

end CrossesDetector

/-- `indicator.upper()` (Python `str.upper` for the ASCII indicator names used
here), defined by a structural character map so that it reduces inside the
kernel (`String.toUpper` in core is defined by non-reducing recursion). -/
def strUpper (s : String) : String := ⟨s.data.map Char.toUpper⟩

/-- `IndicatorCache`: holds the close/high/low series of one simulation run.
The `_cache` dictionary of the source is a pure memoisation of the series
getters below and is therefore not represented (the getters are pure). -/
structure IndicatorCache where
  prices : List ℚ
  highs : List ℚ
  lows : List ℚ

/-- `IndicatorCache.__init__`: `highs or prices` / `lows or prices` — a missing
or empty high/low list falls back to the close prices (Python truthiness of a
list). -/
def IndicatorCache.init (prices : List ℚ) (highs : Option (List ℚ) := none)
    (lows : Option (List ℚ) := none) : IndicatorCache :=
  ⟨prices,
    match highs with
    | none => prices
    | some h => if h.isEmpty then prices else h,
    match lows with
    | none => prices
    | some l => if l.isEmpty then prices else l⟩

namespace IndicatorCache

/-- `IndicatorCache.get_rsi`. -/
def get_rsi (c : IndicatorCache) (period : ℕ := 14) : List ℚ :=
  IndicatorService.calculate_rsi_series c.prices period

/-- `IndicatorCache.get_sma`: `calculate_sma(prices[:i+1], period)` for each
`i` in `range(period - 1, len(prices))`, keeping the non-`None` results. -/
def get_sma (c : IndicatorCache) (period : ℕ) : List ℚ :=
  (List.range' (period - 1) (c.prices.length - (period - 1))).filterMap
    (fun i => IndicatorService.calculate_sma (c.prices.take (i + 1)) period)

/-- `IndicatorCache.get_ema`. -/
def get_ema (c : IndicatorCache) (period : ℕ) : List ℚ :=
  IndicatorService.calculate_ema_series c.prices period

/-- `IndicatorCache.get_value_at_bar`: translates a bar index in the original
price sequence into an index of the (shorter) indicator series.  The bar index
is an integer because the source relies on `bar_index - period` being negative
before the warm-up. -/
def get_value_at_bar (c : IndicatorCache) (indicator : String) (bar_index : ℤ)
    (period : ℕ := 14) : Option ℚ :=
  if strUpper indicator = "PRICE" then
    if 0 ≤ bar_index ∧ bar_index < (c.prices.length : ℤ) then
      c.prices[bar_index.toNat]?
    else none
  else if strUpper indicator = "RSI" then
    let series := c.get_rsi period
    let series_index := bar_index - period
    if 0 ≤ series_index ∧ series_index < (series.length : ℤ) then
      series[series_index.toNat]?
    else none
  else if strUpper indicator = "SMA" then
    let series := c.get_sma period
    let series_index := bar_index - period + 1
    if 0 ≤ series_index ∧ series_index < (series.length : ℤ) then
      series[series_index.toNat]?
    else none
  else if strUpper indicator = "EMA" then
    let series := c.get_ema period
    let series_index := bar_index - period + 1
    if 0 ≤ series_index ∧ series_index < (series.length : ℤ) then
      series[series_index.toNat]?
    else none
  else
    if 0 ≤ bar_index ∧ bar_index < (c.prices.length : ℤ) then
      c.prices[bar_index.toNat]?
    else none

end IndicatorCache

namespace RuleEvaluator

/-- `RuleEvaluator.evaluate`: resolves the current (and, for crosses, the
previous) indicator value through the cache and compares it with the target.
Every code path yields a `Bool`; absent values and unknown operators evaluate
to `false` (the function is total, mirroring that the source never raises). -/
def evaluate (cache : IndicatorCache) (indicator operator : String)
    (target_value : ℚ) (bar_index : ℤ) (period : ℕ := 14) : Bool :=
  match cache.get_value_at_bar indicator bar_index period with
  | none => false
  | some current_val =>
    if operator = "greater_than" ∨ operator = ">" then
      decide (target_value < current_val)
    else if operator = "less_than" ∨ operator = "<" then
      decide (current_val < target_value)
    else if operator = "equals" ∨ operator = "==" then
      decide (|current_val - target_value| < 1 / 100)
    else if operator = "greater_equal" ∨ operator = ">=" then
      decide (target_value ≤ current_val)
    else if operator = "less_equal" ∨ operator = "<=" then
      decide (current_val ≤ target_value)
    else if operator = "crosses_above" ∨ operator = "crosses_below" then
      match cache.get_value_at_bar indicator (bar_index - 1) period with
      | none => false
      | some prev_val =>
        if operator = "crosses_above" then
          CrossesDetector.crosses_above current_val prev_val target_value
        else
          CrossesDetector.crosses_below current_val prev_val target_value
    else false

end RuleEvaluator

/-! ## Simulation engine (`simulate_bot`, `app/api/v1/bots.py` lines 313-481)

The HTTP/database plumbing is out of scope; `simulate_bot` below receives the
bot id and its rule list (already sorted ascending by `rule_order`, which is
what the `order_by(BotRule.rule_order)` query delivers) directly. -/

/-- Modelled from the spec: the Python standard library `random` module
(Mersenne Twister) is external library code, not part of this repository.
Per spec section 4.5 / 9 the only property the core relies on is that the
generator is a reproducible PRNG — a deterministic function of the seed with a
specified, fixed algorithm.  It is modelled as a fixed 64-bit linear
congruential generator. -/
def Rng.next (state : ℕ) : ℕ :=
  (6364136223846793005 * state + 1442695040888963407) % 2 ^ 64

/-- Modelled from the spec: `random.uniform(a, b)` — one draw in `[a, b]`
taken deterministically from the current generator state. -/
def Rng.uniformOf (state : ℕ) (a b : ℚ) : ℚ :=
  a + (b - a) * ((state % 2 ^ 53 : ℕ) : ℚ) / 2 ^ 53

/-- Modelled from the spec: `math.sin` is a transcendental library function;
the spec (section 4.5) only requires a fixed-frequency bounded oscillation as
a deterministic function of the bar index.  It is modelled by the degree-7
Taylor polynomial of the sine.  No claim depends on its values, only on its
determinism. -/
def sinQ (x : ℚ) : ℚ :=
  x - x ^ 3 / 6 + x ^ 5 / 120 - x ^ 7 / 5040

/-- Volatility for bar `i`: 10.0 inside the clustering windows
`200 < i < 400` and `600 < i < 800`, else 5.0. -/
def volatilityAt (i : ℕ) : ℚ :=
  if (200 < i ∧ i < 400) ∨ (600 < i ∧ i < 800) then 10 else 5

/-- One bar of synthetic data: `close = base + trend + sine + noise`, and
`high`/`low` are `close ± abs(uniform(0, volatility * 0.5))`.  Three uniform
draws advance the generator state three times, in the source's order. -/
def genBar (i : ℕ) (state : ℕ) : (ℚ × ℚ × ℚ) × ℕ :=
  let trend : ℚ := (i : ℚ) * (5 / 100)
  let sine : ℚ := sinQ ((i : ℚ) * (1 / 10)) * 20
  let volatility := volatilityAt i
  let s1 := Rng.next state
  let noise := Rng.uniformOf s1 (-volatility) volatility
  let close_price : ℚ := 2000 + trend + sine + noise
  let s2 := Rng.next s1
  let high_price := close_price + |Rng.uniformOf s2 0 (volatility * (1 / 2))|
  let s3 := Rng.next s2
  let low_price := close_price - |Rng.uniformOf s3 0 (volatility * (1 / 2))|
  ((close_price, high_price, low_price), s3)

/-- The full synthetic price/high/low generation loop over `bars` bars,
threading the generator state seeded with `random.seed(seed_val)`. -/
def generateBars (seed_val bars : ℕ) : List ℚ × List ℚ × List ℚ :=
  let step := fun (acc : (List ℚ × List ℚ × List ℚ) × ℕ) (i : ℕ) =>
    let ((ps, hs, ls), st) := acc
    let ((c, h, l), st') := genBar i st
    ((ps ++ [c], hs ++ [h], ls ++ [l]), st')
  ((List.range bars).foldl step (([], [], []), seed_val)).1

/-- A `BotRule` row (`app/models/models.py`), as consumed by `simulate_bot`.
The extra `indicator_period` field carries the period configured on the rule's
indicator (`StrategyPackage.period` in `app/models/bot.py`); `simulate_bot`
never reads it — see claim C10. -/
structure BotRule where
  rule_order : ℤ
  indicator : String
  operator : String
  value : Option ℚ
  action : String
  is_enabled : Bool
  indicator_period : ℕ
deriving DecidableEq

/-- The projection of a `BotRule` to the fields the simulation actually
consumes (everything except the configured indicator period). -/
structure BotRuleView where
  rule_order : ℤ
  indicator : String
  operator : String
  value : Option ℚ
  action : String
  is_enabled : Bool
deriving DecidableEq

/-- Forget the configured indicator period of a rule. -/
def BotRule.erasePeriod (r : BotRule) : BotRuleView :=
  ⟨r.rule_order, r.indicator, r.operator, r.value, r.action, r.is_enabled⟩

/-- The hardcoded evaluation period of the simulation loop: 20 for `SMA`/`EMA`
(exact match, as in `rule.indicator in ["SMA", "EMA"]`), 14 otherwise. -/
def simPeriod (indicator : String) : ℕ :=
  if indicator = "SMA" ∨ indicator = "EMA" then 20 else 14

/-- The per-rule condition of the simulation loop: `rule_evaluator.evaluate`
with `target = rule.value or 0` (Python `or`: `None` and `0.0` both give `0`)
and the hardcoded period. -/
def ruleMatches (cache : IndicatorCache) (r : BotRule) (i : ℕ) : Bool :=
  RuleEvaluator.evaluate cache r.indicator r.operator (r.value.getD 0) (i : ℤ)
    (simPeriod r.indicator)

/-- The inner `for rule in rules` scan of one bar: skip disabled rules,
evaluate enabled ones, and `break` at the first match ("first match wins"). -/
def findTriggered (cache : IndicatorCache) (rules : List BotRule) (i : ℕ) :
    Option BotRule :=
  match rules with
  | [] => none
  | r :: rest =>
    if ¬ r.is_enabled then findTriggered cache rest i
    else if ruleMatches cache r i then some r
    else findTriggered cache rest i

/-- One closed trade, as appended to `trades` (pnl already scaled by the 10
units position size). -/
structure TradeRec where
  bar : ℕ
  type : String
  entry : ℚ
  exit : ℚ
  pnl : ℚ
deriving DecidableEq

/-- One entry of the `reasons` log.  The source stores a formatted string;
the embedding keeps the interpolated data (bar, event label, price, matched
rule's order) instead of the formatted text. -/
structure Reason where
  bar : ℕ
  event : String
  price : ℚ
  rule_order : ℤ
deriving DecidableEq

/-- The mutable state of the simulation loop. -/
structure SimState where
  balance : ℚ
  position : Option String
  entry_price : ℚ
  trades : List TradeRec
  reasons : List Reason
deriving DecidableEq

/-- Python truthiness of the `position` variable (`None` and the empty string
are falsy). -/
def strTruthy : Option String → Bool
  | none => false
  | some s => !s.isEmpty

/-- The execution block of one bar: the `if action_triggered` / `elif` chain.
`Buy`/`Sell` fire only while `position is None`; `"Close Position"` fires only
while `position` is truthy, adds `pnl * 10` to the balance and appends the
trade. -/
def execStep (st : SimState) (triggered : Option BotRule) (i : ℕ)
    (current_price : ℚ) : SimState :=
  match triggered with
  | none => st
  | some r =>
    if r.action = "Buy" ∧ st.position = none then
      { st with
          position := some "buy"
          entry_price := current_price
          reasons := st.reasons ++ [⟨i, "BUY", current_price, r.rule_order⟩] }
    else if r.action = "Sell" ∧ st.position = none then
      { st with
          position := some "sell"
          entry_price := current_price
          reasons := st.reasons ++ [⟨i, "SELL", current_price, r.rule_order⟩] }
    else if r.action = "Close Position" ∧ strTruthy st.position then
      let pnl : ℚ :=
        if st.position = some "buy" then current_price - st.entry_price
        else st.entry_price - current_price
      { st with
          balance := st.balance + pnl * 10
          trades := st.trades ++
            [⟨i, st.position.getD "", st.entry_price, current_price, pnl * 10⟩]
          reasons := st.reasons ++ [⟨i, "CLOSE", pnl * 10, r.rule_order⟩]
          position := none }
    else st

/-- One iteration of the bar loop: read the current price, scan the rules,
execute the triggered action. -/
def barStep (cache : IndicatorCache) (rules : List BotRule) (st : SimState)
    (i : ℕ) : SimState :=
  execStep st (findTriggered cache rules i) i (cache.prices.getD i 0)

/-- The result payload of `simulate_bot` (transport metadata other than the
seed and bar count is omitted). -/
structure SimulationResponse where
  seed : ℕ
  bars : ℕ
  total_trades : ℕ
  net_profit : ℚ
  trade_log : List TradeRec
  reasons : List Reason
deriving DecidableEq

/-- `simulate_bot`: empty rule list short-circuits; otherwise seed the PRNG
with `bot_id + duration_days`, generate `duration_days * 96` bars, and run the
bar loop from the warm-up bar 50, reporting the net profit, the trade log and
the last 20 reasons. -/
def simulate_bot (bot_id : ℕ) (rules : List BotRule) (duration_days : ℕ)
    (initial_balance : ℚ) : SimulationResponse :=
  if rules.isEmpty then ⟨0, 0, 0, 0, [], []⟩
  else
    let seed_val := bot_id + duration_days
    let bars := duration_days * 96
    let (prices, highs, lows) := generateBars seed_val bars
    let cache := IndicatorCache.init prices (some highs) (some lows)
    let st0 : SimState := ⟨initial_balance, none, 0, [], []⟩
    let stF := ((List.range bars).drop 50).foldl (barStep cache rules) st0
    ⟨seed_val, bars, stF.trades.length, stF.balance - initial_balance,
      stF.trades, stF.reasons.drop (stF.reasons.length - 20)⟩

/-! ## Generic helper lemmas -/

/-- A predicate preserved by every step of a left fold holds of the result. -/
lemma foldl_preserves {α β : Type _} (f : β → α → β) (P : β → Prop) :
    ∀ (l : List α) (init : β), P init →
      (∀ b a, a ∈ l → P b → P (f b a)) → P (l.foldl f init) := by
  intro l
  induction l with
  | nil => intro init h _; simpa using h
  | cons x xs ih =>
    intro init h hstep
    simp only [List.foldl_cons]
    exact ih (f init x) (hstep init x (by simp) h)
      (fun b a ha hb => hstep b a (by simp [ha]) hb)

/-- A predicate preserved by every step of a left scan holds of every entry of
the scan. -/
lemma scanl_preserves {α β : Type _} (f : β → α → β) (P : β → Prop) :
    ∀ (l : List α) (init : β), P init →
      (∀ b a, a ∈ l → P b → P (f b a)) →
      ∀ x ∈ List.scanl f init l, P x := by
  intro l
  induction l with
  | nil => intro init h _ x hx; simp at hx; simpa [hx] using h
  | cons y ys ih =>
    intro init h hstep x hx
    rw [List.scanl_cons] at hx
    rcases List.mem_cons.mp hx with rfl | hx
    · exact h
    · exact ih (f init y) (hstep init y (by simp) h)
        (fun b a ha hb => hstep b a (by simp [ha]) hb) x hx

/-- Rounding to `d` decimals preserves nonnegativity. -/
lemma roundTo_nonneg {d : ℕ} {x : ℚ} (hx : 0 ≤ x) : 0 ≤ roundTo d x := by
  unfold roundTo
  have h10 : (0:ℚ) < 10 ^ d := by positivity
  apply div_nonneg _ (le_of_lt h10)
  have : (0:ℤ) ≤ round (x * 10 ^ d) := by
    rw [round_eq]
    have h0 : (0:ℤ) = ⌊(1:ℚ)/2⌋ := by norm_num
    rw [h0]
    apply Int.floor_mono
    have : (0:ℚ) ≤ x * 10 ^ d := by positivity
    linarith
  exact_mod_cast this

/-- Rounding to two decimals of a value below 100 stays at most 100. -/
lemma roundTo_two_le_hundred {x : ℚ} (hx : x < 100) : roundTo 2 x ≤ 100 := by
  unfold roundTo
  rw [div_le_iff₀ (by norm_num : (0:ℚ) < 10 ^ 2)]
  have : round (x * 10 ^ 2) ≤ 10000 := by
    rw [round_eq]
    have : ⌊x * 10 ^ 2 + 1/2⌋ ≤ ⌊(10000:ℚ) + 1/2⌋ := by
      apply Int.floor_mono; nlinarith
    calc ⌊x * 10 ^ 2 + 1/2⌋ ≤ ⌊(10000:ℚ) + 1/2⌋ := this
    _ = 10000 := by norm_num
  calc ((round (x * 10 ^ 2) : ℤ) : ℚ) ≤ ((10000 : ℤ) : ℚ) := by exact_mod_cast this
  _ = 100 * 10 ^ 2 := by norm_num

/-! ## RSI lemmas -/

namespace IndicatorService

/-- Every gain is nonnegative. -/
lemma gainOf_nonneg (c : ℚ) : 0 ≤ gainOf c := le_max_left 0 c

/-- Every loss is nonnegative. -/
lemma lossOf_nonneg (c : ℚ) : 0 ≤ lossOf c := abs_nonneg _

/-- The Wilder smoothing step preserves nonnegativity (for a positive period). -/
lemma wilderStep_nonneg {period : ℕ} (hp : 1 ≤ period) {avg x : ℚ}
    (ha : 0 ≤ avg) (hx : 0 ≤ x) : 0 ≤ wilderStep period avg x := by
  unfold wilderStep
  have h1 : (1:ℚ) ≤ (period : ℚ) := by exact_mod_cast hp
  apply div_nonneg _ (by linarith)
  nlinarith

/-- The RSI value computed from nonnegative averages lies in `[0, 100]`. -/
lemma rsiValue_bounds {g l : ℚ} (hg : 0 ≤ g) (hl : 0 ≤ l) :
    0 ≤ rsiValue g l ∧ rsiValue g l ≤ 100 := by
  unfold rsiValue
  by_cases h : l = 0
  · subst h
    rw [if_pos rfl]
    constructor <;> split <;> norm_num
  · have hlpos : 0 < l := lt_of_le_of_ne hl (Ne.symm h)
    have hrs : 0 ≤ g / l := div_nonneg hg hl
    have hden : (1:ℚ) ≤ 1 + g / l := by linarith
    have hfrac_pos : 0 < 100 / (1 + g / l) := by positivity
    have hfrac_le : 100 / (1 + g / l) ≤ 100 := by
      rw [div_le_iff₀ (by linarith : (0:ℚ) < 1 + g / l)]
      nlinarith
    simp only [if_neg h]
    constructor
    · exact roundTo_nonneg (by linarith)
    · exact roundTo_two_le_hundred (by linarith)

end IndicatorService

namespace IndicatorService

/-- Every element of `rsiGains` is nonnegative. -/
lemma rsiGains_nonneg {prices : List ℚ} {x : ℚ} (hx : x ∈ rsiGains prices) :
    0 ≤ x := by
  rcases List.mem_map.mp hx with ⟨c, _, rfl⟩
  exact gainOf_nonneg c

/-- Every element of `rsiLosses` is nonnegative. -/
lemma rsiLosses_nonneg {prices : List ℚ} {x : ℚ} (hx : x ∈ rsiLosses prices) :
    0 ≤ x := by
  rcases List.mem_map.mp hx with ⟨c, _, rfl⟩
  exact lossOf_nonneg c

/-- The initial averages are nonnegative. -/
lemma rsiInit_nonneg (prices : List ℚ) (period : ℕ) :
    0 ≤ (rsiInit (rsiGains prices) (rsiLosses prices) period).1 ∧
    0 ≤ (rsiInit (rsiGains prices) (rsiLosses prices) period).2 := by
  constructor <;>
  · apply div_nonneg _ (by positivity)
    apply List.sum_nonneg
    intro x hx
    first
    | exact rsiGains_nonneg (List.take_subset _ _ hx)
    | exact rsiLosses_nonneg (List.take_subset _ _ hx)

/-- Every state of the smoothing loop has nonnegative averages. -/
lemma rsiStates_nonneg {prices : List ℚ} {period : ℕ} (hp : 1 ≤ period) :
    ∀ a ∈ rsiStates prices period, 0 ≤ a.1 ∧ 0 ≤ a.2 := by
  intro a ha
  refine scanl_preserves (rsiStep period) (fun b => 0 ≤ b.1 ∧ 0 ≤ b.2) _ _
    (rsiInit_nonneg prices period) ?_ a ha
  rintro b ⟨g, l⟩ hmem ⟨hb1, hb2⟩
  have hgl := List.of_mem_zip hmem
  have hg : 0 ≤ g := rsiGains_nonneg (List.drop_subset _ _ hgl.1)
  have hl : 0 ≤ l := rsiLosses_nonneg (List.drop_subset _ _ hgl.2)
  exact ⟨wilderStep_nonneg hp hb1 hg, wilderStep_nonneg hp hb2 hl⟩

/-- The final smoothing state has nonnegative averages. -/
lemma rsiFinalState_nonneg {prices : List ℚ} {period : ℕ} (hp : 1 ≤ period) :
    0 ≤ (rsiFinalState prices period).1 ∧ 0 ≤ (rsiFinalState prices period).2 := by
  refine foldl_preserves (rsiStep period) (fun b => 0 ≤ b.1 ∧ 0 ≤ b.2) _ _
    (rsiInit_nonneg prices period) ?_
  rintro b ⟨g, l⟩ hmem ⟨hb1, hb2⟩
  have hgl := List.of_mem_zip hmem
  have hg : 0 ≤ g := rsiGains_nonneg (List.drop_subset _ _ hgl.1)
  have hl : 0 ≤ l := rsiLosses_nonneg (List.drop_subset _ _ hgl.2)
  exact ⟨wilderStep_nonneg hp hb1 hg, wilderStep_nonneg hp hb2 hl⟩

/-- Every RSI value returned by `calculate_rsi` lies in `[0, 100]`. -/
lemma calculate_rsi_bounds {prices : List ℚ} {period : ℕ} (hp : 1 ≤ period)
    {r : ℚ} (hr : calculate_rsi prices period = some r) : 0 ≤ r ∧ r ≤ 100 := by
  unfold calculate_rsi at hr
  split at hr
  · exact absurd hr (by simp)
  · have h := @rsiFinalState_nonneg prices period hp
    rw [← Option.some.inj hr]
    exact rsiValue_bounds h.1 h.2

/-- Every element of `calculate_rsi_series` lies in `[0, 100]`. -/
lemma calculate_rsi_series_bounds {prices : List ℚ} {period : ℕ} (hp : 1 ≤ period)
    {r : ℚ} (hr : r ∈ calculate_rsi_series prices period) : 0 ≤ r ∧ r ≤ 100 := by
  unfold calculate_rsi_series at hr
  split at hr
  · simp at hr
  · rcases List.mem_map.mp hr with ⟨a, ha, rfl⟩
    have h := rsiStates_nonneg hp a ha
    exact rsiValue_bounds h.1 h.2

end IndicatorService

namespace IndicatorService

/-- Consecutive differences of a strictly increasing price list are positive. -/
lemma priceChanges_pos {prices : List ℚ} (h : List.Chain' (· < ·) prices) :
    ∀ x ∈ priceChanges prices, 0 < x := by
  induction prices with
  | nil => intro x hx; simp [priceChanges] at hx
  | cons a t ih =>
    cases t with
    | nil => intro x hx; simp [priceChanges] at hx
    | cons b t' =>
      intro x hx
      have hab : a < b := (List.chain'_cons.mp h).1
      have htail : List.Chain' (· < ·) (b :: t') := (List.chain'_cons.mp h).2
      have : priceChanges (a :: b :: t') = (b - a) :: priceChanges (b :: t') := rfl
      rw [this] at hx
      rcases List.mem_cons.mp hx with rfl | hx
      · linarith
      · exact ih htail x hx

/-- Consecutive differences of a strictly decreasing price list are negative. -/
lemma priceChanges_neg {prices : List ℚ} (h : List.Chain' (· > ·) prices) :
    ∀ x ∈ priceChanges prices, x < 0 := by
  induction prices with
  | nil => intro x hx; simp [priceChanges] at hx
  | cons a t ih =>
    cases t with
    | nil => intro x hx; simp [priceChanges] at hx
    | cons b t' =>
      intro x hx
      have hab : b < a := (List.chain'_cons.mp h).1
      have htail : List.Chain' (· > ·) (b :: t') := (List.chain'_cons.mp h).2
      have : priceChanges (a :: b :: t') = (b - a) :: priceChanges (b :: t') := rfl
      rw [this] at hx
      rcases List.mem_cons.mp hx with rfl | hx
      · linarith
      · exact ih htail x hx

/-- Length of the consecutive-differences list. -/
lemma priceChanges_length (prices : List ℚ) :
    (priceChanges prices).length = prices.length - 1 := by
  simp [priceChanges]

/-- On a strictly increasing price list, `calculate_rsi` returns exactly 100. -/
lemma calculate_rsi_all_gains {prices : List ℚ} {period : ℕ} (hp : 1 ≤ period)
    (hlen : period + 1 ≤ prices.length) (hchain : List.Chain' (· < ·) prices) :
    calculate_rsi prices period = some 100 := by
  have hgain : ∀ x ∈ rsiGains prices, 0 < x := by
    intro x hx
    rcases List.mem_map.mp hx with ⟨c, hc, rfl⟩
    have := priceChanges_pos hchain c hc
    simp [gainOf, max_eq_right (le_of_lt this)]
    exact this
  have hloss : ∀ x ∈ rsiLosses prices, x = 0 := by
    intro x hx
    rcases List.mem_map.mp hx with ⟨c, hc, rfl⟩
    have := priceChanges_pos hchain c hc
    simp [lossOf, min_eq_left (le_of_lt this)]
  have hglen : period ≤ (rsiGains prices).length := by
    rw [rsiGains, List.length_map, priceChanges_length]
    omega
  have hper : (0:ℚ) < (period : ℚ) := by exact_mod_cast hp
  have hinit : 0 < (rsiInit (rsiGains prices) (rsiLosses prices) period).1 ∧
      (rsiInit (rsiGains prices) (rsiLosses prices) period).2 = 0 := by
    constructor
    · apply div_pos _ hper
      apply List.sum_pos
      · intro a ha; exact hgain a (List.take_subset _ _ ha)
      · have hlen2 : ((rsiGains prices).take period).length = period := by
          rw [List.length_take]
          omega
        intro hnil
        rw [hnil] at hlen2
        simp at hlen2
        omega
    · have : ((rsiLosses prices).take period).sum = 0 :=
        List.sum_eq_zero (fun x hx => hloss x (List.take_subset _ _ hx))
      simp [rsiInit, this]
  have hfinal : 0 < (rsiFinalState prices period).1 ∧
      (rsiFinalState prices period).2 = 0 := by
    refine foldl_preserves (rsiStep period) (fun b => 0 < b.1 ∧ b.2 = 0) _ _ hinit ?_
    rintro b ⟨g, l⟩ hmem ⟨hb1, hb2⟩
    have hgl := List.of_mem_zip hmem
    have hg : 0 < g := hgain g (List.drop_subset _ _ hgl.1)
    have hl : l = 0 := hloss l (List.drop_subset _ _ hgl.2)
    have h1 : (1:ℚ) ≤ (period : ℚ) := by exact_mod_cast hp
    constructor
    · apply div_pos _ hper
      nlinarith
    · simp [rsiStep, wilderStep, hb2, hl]
  unfold calculate_rsi
  rw [if_neg (by omega)]
  rw [rsiValue, if_pos hfinal.2, if_pos hfinal.1]

/-- On a strictly decreasing price list, `calculate_rsi` returns exactly 0. -/
lemma calculate_rsi_all_losses {prices : List ℚ} {period : ℕ} (hp : 1 ≤ period)
    (hlen : period + 1 ≤ prices.length) (hchain : List.Chain' (· > ·) prices) :
    calculate_rsi prices period = some 0 := by
  have hgain : ∀ x ∈ rsiGains prices, x = 0 := by
    intro x hx
    rcases List.mem_map.mp hx with ⟨c, hc, rfl⟩
    have := priceChanges_neg hchain c hc
    simp [gainOf, max_eq_left (le_of_lt this)]
  have hloss : ∀ x ∈ rsiLosses prices, 0 < x := by
    intro x hx
    rcases List.mem_map.mp hx with ⟨c, hc, rfl⟩
    have := priceChanges_neg hchain c hc
    rw [lossOf, min_eq_right (le_of_lt this), abs_of_neg this]
    linarith
  have hllen : period ≤ (rsiLosses prices).length := by
    rw [rsiLosses, List.length_map, priceChanges_length]
    omega
  have hper : (0:ℚ) < (period : ℚ) := by exact_mod_cast hp
  have hinit : (rsiInit (rsiGains prices) (rsiLosses prices) period).1 = 0 ∧
      0 < (rsiInit (rsiGains prices) (rsiLosses prices) period).2 := by
    constructor
    · have : ((rsiGains prices).take period).sum = 0 :=
        List.sum_eq_zero (fun x hx => hgain x (List.take_subset _ _ hx))
      simp [rsiInit, this]
    · apply div_pos _ hper
      apply List.sum_pos
      · intro a ha; exact hloss a (List.take_subset _ _ ha)
      · have hlen2 : ((rsiLosses prices).take period).length = period := by
          rw [List.length_take]
          omega
        intro hnil
        rw [hnil] at hlen2
        simp at hlen2
        omega
  have hfinal : (rsiFinalState prices period).1 = 0 ∧
      0 < (rsiFinalState prices period).2 := by
    refine foldl_preserves (rsiStep period) (fun b => b.1 = 0 ∧ 0 < b.2) _ _ hinit ?_
    rintro b ⟨g, l⟩ hmem ⟨hb1, hb2⟩
    have hgl := List.of_mem_zip hmem
    have hg : g = 0 := hgain g (List.drop_subset _ _ hgl.1)
    have hl : 0 < l := hloss l (List.drop_subset _ _ hgl.2)
    have h1 : (1:ℚ) ≤ (period : ℚ) := by exact_mod_cast hp
    constructor
    · simp [rsiStep, wilderStep, hb1, hg]
    · apply div_pos _ hper
      nlinarith
  unfold calculate_rsi
  rw [if_neg (by omega)]
  rw [rsiValue, if_neg (by exact ne_of_gt hfinal.2), hfinal.1]
  norm_num [roundTo]

end IndicatorService

/-! ## Claim theorems -/

/-- C2: for every price list (and positive period), every value returned by
`calculate_rsi` and every element of `calculate_rsi_series` lies in `[0, 100]`;
on a strictly increasing price list of sufficient length `calculate_rsi`
returns exactly 100, and on a strictly decreasing one it returns a value
below 1. -/
theorem C2_rsi_bounds (prices : List ℚ) (period : ℕ) (hp : 1 ≤ period) :
    (∀ r, IndicatorService.calculate_rsi prices period = some r → 0 ≤ r ∧ r ≤ 100) ∧
    (∀ r ∈ IndicatorService.calculate_rsi_series prices period, 0 ≤ r ∧ r ≤ 100) ∧
    (period + 1 ≤ prices.length → List.Chain' (· < ·) prices →
      IndicatorService.calculate_rsi prices period = some 100) ∧
    (period + 1 ≤ prices.length → List.Chain' (· > ·) prices →
      ∃ r, IndicatorService.calculate_rsi prices period = some r ∧ r < 1) :=
  ⟨fun _ hr => IndicatorService.calculate_rsi_bounds hp hr,
   fun _ hr => IndicatorService.calculate_rsi_series_bounds hp hr,
   fun hlen hch => IndicatorService.calculate_rsi_all_gains hp hlen hch,
   fun hlen hch =>
     ⟨0, IndicatorService.calculate_rsi_all_losses hp hlen hch, by norm_num⟩⟩

/-- Witness for C2 at a concrete period and price list. -/
theorem C2_rsi_bounds_witness :
    1 ≤ 14 ∧
    ((∀ r, IndicatorService.calculate_rsi ((List.range 20).map (fun i => (i : ℚ))) 14 =
        some r → 0 ≤ r ∧ r ≤ 100) ∧
     (∀ r ∈ IndicatorService.calculate_rsi_series ((List.range 20).map (fun i => (i : ℚ))) 14,
        0 ≤ r ∧ r ≤ 100) ∧
     (14 + 1 ≤ ((List.range 20).map (fun i => (i : ℚ))).length →
      List.Chain' (· < ·) ((List.range 20).map (fun i => (i : ℚ))) →
      IndicatorService.calculate_rsi ((List.range 20).map (fun i => (i : ℚ))) 14 = some 100) ∧
     (14 + 1 ≤ ((List.range 20).map (fun i => (i : ℚ))).length →
      List.Chain' (· > ·) ((List.range 20).map (fun i => (i : ℚ))) →
      ∃ r, IndicatorService.calculate_rsi ((List.range 20).map (fun i => (i : ℚ))) 14 =
        some r ∧ r < 1)) :=
  ⟨by decide, C2_rsi_bounds ((List.range 20).map (fun i => (i : ℚ))) 14 (by decide)⟩

/-- The operator strings `RuleEvaluator.evaluate` recognizes. -/
def knownOperators : List String :=
  ["greater_than", ">", "less_than", "<", "equals", "==",
   "greater_equal", ">=", "less_equal", "<=", "crosses_above", "crosses_below"]

/-- C3: `RuleEvaluator.evaluate` is a total `Bool`-valued function (so it never
raises), and it returns `false` whenever the current indicator value is absent,
whenever a cross operator finds the previous bar's value absent, and whenever
the operator string is unrecognized. -/
theorem C3_fail_closed (cache : IndicatorCache) (ind op : String) (tv : ℚ)
    (bar : ℤ) (period : ℕ) :
    (cache.get_value_at_bar ind bar period = none →
      RuleEvaluator.evaluate cache ind op tv bar period = false) ∧
    ((op = "crosses_above" ∨ op = "crosses_below") →
      cache.get_value_at_bar ind (bar - 1) period = none →
      RuleEvaluator.evaluate cache ind op tv bar period = false) ∧
    (op ∉ knownOperators →
      RuleEvaluator.evaluate cache ind op tv bar period = false) := by
  refine ⟨?_, ?_, ?_⟩
  · intro h
    simp [RuleEvaluator.evaluate, h]
  · intro hop hprev
    cases hcur : cache.get_value_at_bar ind bar period with
    | none => simp [RuleEvaluator.evaluate, hcur]
    | some v =>
      rcases hop with rfl | rfl <;>
        simp [RuleEvaluator.evaluate, hcur, hprev]
  · intro hop
    simp only [knownOperators, List.mem_cons, List.not_mem_nil, or_false,
      not_or] at hop
    obtain ⟨h1, h2, h3, h4, h5, h6, h7, h8, h9, h10, h11, h12⟩ := hop
    cases hcur : cache.get_value_at_bar ind bar period with
    | none => simp [RuleEvaluator.evaluate, hcur]
    | some v =>
      simp [RuleEvaluator.evaluate, hcur, h1, h2, h3, h4, h5, h6, h7, h8, h9,
        h10, h11, h12]

/-- Witness for C3 at a concrete cache, operator and bar. -/
theorem C3_fail_closed_witness :
    ((IndicatorCache.mk [] [] []).get_value_at_bar "RSI" 0 14 = none →
      RuleEvaluator.evaluate (IndicatorCache.mk [] [] []) "RSI" "frob" 0 0 14 = false) ∧
    (("frob" = "crosses_above" ∨ "frob" = "crosses_below") →
      (IndicatorCache.mk [] [] []).get_value_at_bar "RSI" (0 - 1) 14 = none →
      RuleEvaluator.evaluate (IndicatorCache.mk [] [] []) "RSI" "frob" 0 0 14 = false) ∧
    ("frob" ∉ knownOperators →
      RuleEvaluator.evaluate (IndicatorCache.mk [] [] []) "RSI" "frob" 0 0 14 = false) :=
  C3_fail_closed (IndicatorCache.mk [] [] []) "RSI" "frob" 0 0 14

/-- C5: position discipline of the execution block.  A `Buy`/`Sell` match
while a position is already open leaves the whole state (position, entry
price, trade log, balance, reasons) unchanged; a `"Close Position"` match
while no position is open changes nothing; and the trade log grows only on a
close transition (open position, `"Close Position"` action, position `None`
afterwards).  At most one position exists at any time by construction: the
state carries a single `Option`-valued position. -/
theorem C5_position_discipline (st : SimState) (r : BotRule)
    (tr : Option BotRule) (i : ℕ) (price : ℚ) :
    ((r.action = "Buy" ∨ r.action = "Sell") → st.position ≠ none →
      execStep st (some r) i price = st) ∧
    (r.action = "Close Position" → st.position = none →
      execStep st (some r) i price = st) ∧
    ((execStep st tr i price).trades ≠ st.trades →
      ∃ r', tr = some r' ∧ r'.action = "Close Position" ∧
        strTruthy st.position = true ∧ (execStep st tr i price).position = none) := by
  refine ⟨?_, ?_, ?_⟩
  · intro hact hpos
    rcases hact with h | h <;>
      simp [execStep, h, hpos]
  · intro hact hpos
    simp [execStep, hact, hpos, strTruthy]
  · intro htr
    cases tr with
    | none => simp [execStep] at htr
    | some r' =>
      simp only [execStep] at htr ⊢
      by_cases h1 : r'.action = "Buy" ∧ st.position = none
      · rw [if_pos h1] at htr
        simp at htr
      · rw [if_neg h1] at htr ⊢
        by_cases h2 : r'.action = "Sell" ∧ st.position = none
        · rw [if_pos h2] at htr
          simp at htr
        · rw [if_neg h2] at htr ⊢
          by_cases h3 : r'.action = "Close Position" ∧ strTruthy st.position = true
          · rw [if_pos h3] at htr ⊢
            exact ⟨r', rfl, h3.1, h3.2, rfl⟩
          · rw [if_neg h3] at htr
            exact absurd rfl htr

/-- A concrete `Buy` rule for witnesses. -/
def buyRule : BotRule := ⟨1, "RSI", "<", some 30, "Buy", true, 14⟩

/-- A concrete simulation state with an open long position for witnesses. -/
def openState : SimState := ⟨10000, some "buy", 5, [], []⟩

/-- Witness for C5 at a concrete state, rule and price. -/
theorem C5_position_discipline_witness :
    ((buyRule.action = "Buy" ∨ buyRule.action = "Sell") →
      openState.position ≠ none →
      execStep openState (some buyRule) 0 7 = openState) ∧
    (buyRule.action = "Close Position" → openState.position = none →
      execStep openState (some buyRule) 0 7 = openState) ∧
    ((execStep openState none 0 7).trades ≠ openState.trades →
      ∃ r', (none : Option BotRule) = some r' ∧ r'.action = "Close Position" ∧
        strTruthy openState.position = true ∧
        (execStep openState none 0 7).position = none) :=
  C5_position_discipline openState buyRule none 0 7

/-- C9: for every indicator name whose upper-cased form is none of `PRICE`,
`RSI`, `SMA`, `EMA` (so in particular `MACD`, `Bollinger Bands`, `ATR`,
`Stochastic`), `get_value_at_bar` silently falls back to the raw close price
at the bar index, and is absent only when the bar index is out of range. -/
theorem C9_unknown_indicator_fallback (c : IndicatorCache) (ind : String)
    (bar : ℤ) (period : ℕ) (h : strUpper ind ∉ ["PRICE", "RSI", "SMA", "EMA"]) :
    c.get_value_at_bar ind bar period =
      if 0 ≤ bar ∧ bar < (c.prices.length : ℤ) then c.prices[bar.toNat]?
      else none := by
  simp only [List.mem_cons, List.not_mem_nil, or_false, not_or] at h
  obtain ⟨h1, h2, h3, h4⟩ := h
  simp [IndicatorCache.get_value_at_bar, h1, h2, h3, h4]

/-- Witness for C9: `MACD` at bar 1 of a three-bar cache yields the raw price. -/
theorem C9_unknown_indicator_fallback_witness :
    strUpper "MACD" ∉ ["PRICE", "RSI", "SMA", "EMA"] ∧
    (IndicatorCache.mk [2, 3, 5] [2, 3, 5] [2, 3, 5]).get_value_at_bar "MACD" 1 14 =
      (if 0 ≤ (1:ℤ) ∧ (1:ℤ) < ((IndicatorCache.mk [2, 3, 5] [2, 3, 5] [2, 3, 5]).prices.length : ℤ)
       then (IndicatorCache.mk [2, 3, 5] [2, 3, 5] [2, 3, 5]).prices[(1:ℤ).toNat]?
       else none) :=
  ⟨by decide,
   C9_unknown_indicator_fallback (IndicatorCache.mk [2, 3, 5] [2, 3, 5] [2, 3, 5])
     "MACD" 1 14 (by decide)⟩

/-- The cache's two-sided range guard is equivalent to a one-sided guard plus
the out-of-range behavior of optional indexing. -/
lemma guard_getElem_eq (l : List ℚ) (si : ℤ) :
    (if 0 ≤ si ∧ si < (l.length : ℤ) then l[si.toNat]? else none) =
    (if 0 ≤ si then l[si.toNat]? else none) := by
  by_cases h0 : 0 ≤ si
  · by_cases h1 : si < (l.length : ℤ)
    · rw [if_pos ⟨h0, h1⟩, if_pos h0]
    · rw [if_neg (by tauto), if_pos h0, List.getElem?_eq_none (by omega)]
  · rw [if_neg (by tauto), if_neg h0]

namespace IndicatorService

/-- Length of the RSI series once enough data is present. -/
lemma calculate_rsi_series_length {prices : List ℚ} {period : ℕ}
    (h : period + 1 ≤ prices.length) :
    (calculate_rsi_series prices period).length = prices.length - period := by
  unfold calculate_rsi_series
  rw [if_neg (by omega), List.length_map]
  unfold rsiStates
  rw [List.length_scanl, List.length_zip, List.length_drop, List.length_drop,
    rsiGains, rsiLosses, List.length_map, List.length_map, priceChanges_length]
  omega

end IndicatorService

/-- C8: `get_value_at_bar` maps bar index `b` to series index `b - period + 1`
for SMA and EMA and to `b - period` for RSI, absent when that index is
negative or beyond the series; with at least 51 prices,
`get_value_at_bar("RSI", 13, 14)` is absent while
`get_value_at_bar("RSI", 50, 14)` is a defined value in `[0, 100]`. -/
theorem C8_bar_index_mapping (c : IndicatorCache) (bar : ℤ) (period : ℕ) :
    (c.get_value_at_bar "SMA" bar period =
      if 0 ≤ bar - period + 1 then (c.get_sma period)[(bar - period + 1).toNat]?
      else none) ∧
    (c.get_value_at_bar "EMA" bar period =
      if 0 ≤ bar - period + 1 then (c.get_ema period)[(bar - period + 1).toNat]?
      else none) ∧
    (c.get_value_at_bar "RSI" bar period =
      if 0 ≤ bar - period then (c.get_rsi period)[(bar - period).toNat]?
      else none) ∧
    (c.get_value_at_bar "RSI" 13 14 = none) ∧
    (51 ≤ c.prices.length →
      ∃ v, c.get_value_at_bar "RSI" 50 14 = some v ∧ 0 ≤ v ∧ v ≤ 100) := by
  have hS : strUpper "SMA" = "SMA" := by decide
  have hE : strUpper "EMA" = "EMA" := by decide
  have hR : strUpper "RSI" = "RSI" := by decide
  have hmapR : ∀ (b : ℤ) (p : ℕ), c.get_value_at_bar "RSI" b p =
      (if 0 ≤ b - p then (c.get_rsi p)[(b - p).toNat]? else none) := by
    intro b p
    rw [IndicatorCache.get_value_at_bar, hR]
    simp only [String.reduceEq, if_false, if_true, reduceIte]
    exact guard_getElem_eq _ _
  refine ⟨?_, ?_, hmapR bar period, ?_, ?_⟩
  · rw [IndicatorCache.get_value_at_bar, hS]
    simp only [String.reduceEq, if_false, if_true, reduceIte]
    exact guard_getElem_eq _ _
  · rw [IndicatorCache.get_value_at_bar, hE]
    simp only [String.reduceEq, if_false, if_true, reduceIte]
    exact guard_getElem_eq _ _
  · rw [hmapR 13 14, if_neg (by decide)]
  · intro hlen
    have hlser : (c.get_rsi 14).length = c.prices.length - 14 := by
      unfold IndicatorCache.get_rsi
      exact IndicatorService.calculate_rsi_series_length (by omega)
    have h36 : ((50:ℤ) - ((14:ℕ) : ℤ)).toNat = 36 := by decide
    have hlt : (36:ℕ) < (c.get_rsi 14).length := by omega
    rw [hmapR 50 14, if_pos (by decide), h36]
    refine ⟨(c.get_rsi 14)[36], List.getElem?_eq_getElem hlt, ?_⟩
    have hmem : (c.get_rsi 14)[36] ∈ c.get_rsi 14 := List.getElem_mem hlt
    exact IndicatorService.calculate_rsi_series_bounds (by norm_num) hmem

/-- A concrete 60-bar cache for witnesses. -/
def witCache : IndicatorCache :=
  IndicatorCache.mk ((List.range 60).map (fun i => (i : ℚ)))
    ((List.range 60).map (fun i => (i : ℚ))) ((List.range 60).map (fun i => (i : ℚ)))

/-- Witness for C8: the warm-up scenario on a concrete 60-bar cache. -/
theorem C8_bar_index_mapping_witness :
    witCache.get_value_at_bar "RSI" 13 14 = none ∧
    (51 ≤ witCache.prices.length →
      ∃ v, witCache.get_value_at_bar "RSI" 50 14 = some v ∧ 0 ≤ v ∧ v ≤ 100) :=
  ⟨(C8_bar_index_mapping witCache 13 14).2.2.2.1,
   (C8_bar_index_mapping witCache 13 14).2.2.2.2⟩

/-- `findTriggered` is `List.find?` of "enabled and matching". -/
lemma findTriggered_eq_find? (cache : IndicatorCache) (rules : List BotRule)
    (i : ℕ) :
    findTriggered cache rules i =
      rules.find? (fun r => r.is_enabled && ruleMatches cache r i) := by
  induction rules with
  | nil => rfl
  | cons r rest ih =>
    rw [findTriggered]
    cases he : r.is_enabled with
    | false => simp [he, List.find?_cons, ih]
    | true =>
      cases hm : ruleMatches cache r i with
      | false => simp [he, hm, List.find?_cons, ih]
      | true => simp [he, hm, List.find?_cons]

/-- `List.find?` returns the first index satisfying the predicate: if index
`i` satisfies it, the result is some index `k ≤ i`, and scanning any prefix
past `i` gives the same result. -/
lemma find?_first_of_get {α : Type _} (p : α → Bool) :
    ∀ (l : List α) (i : ℕ) (hi : i < l.length),
      p (l.get ⟨i, hi⟩) = true →
      ∃ k, ∃ hk : k < l.length, k ≤ i ∧
        l.find? p = some (l.get ⟨k, hk⟩) ∧ p (l.get ⟨k, hk⟩) = true ∧
        (l.take (i + 1)).find? p = l.find? p := by
  intro l
  induction l with
  | nil => intro i hi; simp at hi
  | cons a t ih =>
    intro i hi hp
    cases hpa : p a with
    | true =>
      refine ⟨0, by simp, Nat.zero_le _, ?_, by simpa using hpa, ?_⟩
      · simpa using List.find?_cons_of_pos t hpa
      · rw [List.take_succ_cons, List.find?_cons_of_pos _ hpa,
          List.find?_cons_of_pos _ hpa]
    | false =>
      cases i with
      | zero =>
        rw [show (a :: t).get ⟨0, hi⟩ = a from rfl] at hp
        rw [hp] at hpa
        exact absurd hpa (by simp)
      | succ i' =>
        obtain ⟨k, hk, hki, hfind, hpk, htake⟩ :=
          ih i' (by simpa using hi) (by simpa using hp)
        refine ⟨k + 1, by simpa using hk, by omega, ?_, by simpa using hpk, ?_⟩
        · rw [List.find?_cons_of_neg _ (by simp [hpa]), hfind]
          rfl
        · rw [List.take_succ_cons, List.find?_cons_of_neg _ (by simp [hpa]),
            List.find?_cons_of_neg _ (by simp [hpa]), htake]

/-- C4: with the rule list sorted ascending by `rule_order` (as delivered by
the `order_by` query), if the enabled rules at positions `i < j` both match at
a bar, the scan returns the first enabled matching rule, which sits at some
position `k ≤ i` (so its order is at most both rules' orders), and scanning
only the prefix up to `i` yields the same winner — the rules after the first
match are never consulted. -/
theorem C4_first_match_wins (cache : IndicatorCache) (rules : List BotRule)
    (bar i j : ℕ) (hij : i < j) (hj : j < rules.length)
    (hsorted : rules.Pairwise (fun a b => a.rule_order ≤ b.rule_order))
    (hi_en : (rules.get ⟨i, lt_trans hij hj⟩).is_enabled = true)
    (hi_match : ruleMatches cache (rules.get ⟨i, lt_trans hij hj⟩) bar = true)
    (hj_en : (rules.get ⟨j, hj⟩).is_enabled = true)
    (hj_match : ruleMatches cache (rules.get ⟨j, hj⟩) bar = true) :
    ∃ k, ∃ hk : k < rules.length, k ≤ i ∧
      findTriggered cache rules bar = some (rules.get ⟨k, hk⟩) ∧
      (rules.get ⟨k, hk⟩).is_enabled = true ∧
      ruleMatches cache (rules.get ⟨k, hk⟩) bar = true ∧
      (rules.get ⟨k, hk⟩).rule_order ≤ (rules.get ⟨i, lt_trans hij hj⟩).rule_order ∧
      (rules.get ⟨k, hk⟩).rule_order ≤ (rules.get ⟨j, hj⟩).rule_order ∧
      findTriggered cache (rules.take (i + 1)) bar = findTriggered cache rules bar := by
  have hi' : i < rules.length := lt_trans hij hj
  have hi_en' := hi_en
  have hi_match' := hi_match
  simp only [List.get_eq_getElem] at hi_en' hi_match'
  have hp : (fun r => r.is_enabled && ruleMatches cache r bar)
      (rules.get ⟨i, hi'⟩) = true := by
    simp [hi_en', hi_match']
  obtain ⟨k, hk, hki, hfind, hpk, htake⟩ :=
    find?_first_of_get (fun r => r.is_enabled && ruleMatches cache r bar)
      rules i hi' hp
  have hpk' := hpk
  rw [Bool.and_eq_true] at hpk'
  have hsort := List.pairwise_iff_get.mp hsorted
  have hordi : (rules.get ⟨k, hk⟩).rule_order ≤ (rules.get ⟨i, hi'⟩).rule_order := by
    rcases lt_or_eq_of_le hki with hlt | rfl
    · exact hsort ⟨k, hk⟩ ⟨i, hi'⟩ (Fin.mk_lt_mk.mpr hlt)
    · exact le_refl _
  have hordj : (rules.get ⟨k, hk⟩).rule_order ≤ (rules.get ⟨j, hj⟩).rule_order :=
    hsort ⟨k, hk⟩ ⟨j, hj⟩ (Fin.mk_lt_mk.mpr (by omega))
  refine ⟨k, hk, hki, ?_, hpk'.1, hpk'.2, hordi, hordj, ?_⟩
  · rw [findTriggered_eq_find?, hfind]
  · rw [findTriggered_eq_find?, findTriggered_eq_find?, htake]

/-- A one-bar cache (price 5) for the first-match witness. -/
def simCache1 : IndicatorCache := IndicatorCache.mk [5] [5] [5]

/-- First witness rule: `PRICE > 0`, order 1, Buy. -/
def ruleA : BotRule := ⟨1, "PRICE", ">", some 0, "Buy", true, 14⟩

/-- Second witness rule: `PRICE > 1`, order 2, Sell. -/
def ruleB : BotRule := ⟨2, "PRICE", ">", some 1, "Sell", true, 14⟩

/-- Witness for C4: both concrete rules are enabled and match at bar 0, and
the scan settles on the order-1 rule. -/
theorem C4_first_match_wins_witness :
    (0:ℕ) < 1 ∧ (1:ℕ) < ([ruleA, ruleB] : List BotRule).length ∧
    ([ruleA, ruleB] : List BotRule).Pairwise (fun a b => a.rule_order ≤ b.rule_order) ∧
    (([ruleA, ruleB] : List BotRule).get ⟨0, by decide⟩).is_enabled = true ∧
    ruleMatches simCache1 (([ruleA, ruleB] : List BotRule).get ⟨0, by decide⟩) 0 = true ∧
    (([ruleA, ruleB] : List BotRule).get ⟨1, by decide⟩).is_enabled = true ∧
    ruleMatches simCache1 (([ruleA, ruleB] : List BotRule).get ⟨1, by decide⟩) 0 = true ∧
    (∃ k, ∃ hk : k < ([ruleA, ruleB] : List BotRule).length, k ≤ 0 ∧
      findTriggered simCache1 [ruleA, ruleB] 0 =
        some (([ruleA, ruleB] : List BotRule).get ⟨k, hk⟩) ∧
      (([ruleA, ruleB] : List BotRule).get ⟨k, hk⟩).is_enabled = true ∧
      ruleMatches simCache1 (([ruleA, ruleB] : List BotRule).get ⟨k, hk⟩) 0 = true ∧
      (([ruleA, ruleB] : List BotRule).get ⟨k, hk⟩).rule_order ≤
        (([ruleA, ruleB] : List BotRule).get ⟨0, by decide⟩).rule_order ∧
      (([ruleA, ruleB] : List BotRule).get ⟨k, hk⟩).rule_order ≤
        (([ruleA, ruleB] : List BotRule).get ⟨1, by decide⟩).rule_order ∧
      findTriggered simCache1 (([ruleA, ruleB] : List BotRule).take (0 + 1)) 0 =
        findTriggered simCache1 [ruleA, ruleB] 0) :=
  ⟨by decide, by decide, by decide, by decide, by decide, by decide, by decide,
   C4_first_match_wins simCache1 [ruleA, ruleB] 0 0 1 (by decide) (by decide)
     (by decide) (by decide) (by decide) (by decide) (by decide)⟩

/-- C1: `simulate_bot` is a pure function of (bot id, rule list, duration,
initial balance) — the PRNG is a deterministic function of the seed, which is
computed as `bot_id + duration_days` before price generation — so two runs
with equal inputs produce identical net profit, trade count and trade log. -/
theorem C1_determinism (id₁ id₂ d₁ d₂ : ℕ) (rs₁ rs₂ : List BotRule) (b₁ b₂ : ℚ)
    (hid : id₁ = id₂) (hd : d₁ = d₂) (hr : rs₁ = rs₂) (hb : b₁ = b₂) :
    (simulate_bot id₁ rs₁ d₁ b₁).net_profit = (simulate_bot id₂ rs₂ d₂ b₂).net_profit ∧
    (simulate_bot id₁ rs₁ d₁ b₁).total_trades = (simulate_bot id₂ rs₂ d₂ b₂).total_trades ∧
    (simulate_bot id₁ rs₁ d₁ b₁).trade_log = (simulate_bot id₂ rs₂ d₂ b₂).trade_log ∧
    (rs₁ ≠ [] → (simulate_bot id₁ rs₁ d₁ b₁).seed = id₁ + d₁) := by
  subst hid hd hr hb
  refine ⟨rfl, rfl, rfl, ?_⟩
  intro hne
  rw [simulate_bot, if_neg (by simpa using hne)]

/-- Witness for C1 at concrete inputs. -/
theorem C1_determinism_witness :
    (simulate_bot 1 [ruleA] 30 10000).net_profit =
      (simulate_bot 1 [ruleA] 30 10000).net_profit ∧
    (simulate_bot 1 [ruleA] 30 10000).total_trades =
      (simulate_bot 1 [ruleA] 30 10000).total_trades ∧
    (simulate_bot 1 [ruleA] 30 10000).trade_log =
      (simulate_bot 1 [ruleA] 30 10000).trade_log ∧
    ([ruleA] ≠ ([] : List BotRule) →
      (simulate_bot 1 [ruleA] 30 10000).seed = 1 + 30) :=
  C1_determinism 1 1 30 30 [ruleA] [ruleA] 10000 10000 rfl rfl rfl rfl

/-- Rules equal up to the configured indicator period evaluate identically
(the loop reads only indicator, operator and value). -/
lemma ruleMatches_congr (cache : IndicatorCache) {r1 r2 : BotRule}
    (h : r1.erasePeriod = r2.erasePeriod) (bar : ℕ) :
    ruleMatches cache r1 bar = ruleMatches cache r2 bar := by
  cases r1
  cases r2
  simp only [BotRule.erasePeriod, BotRuleView.mk.injEq] at h
  obtain ⟨h1, h2, h3, h4, h5, h6⟩ := h
  subst h1 h2 h3 h4 h5 h6
  rfl

/-- The rule scan is invariant under changing configured indicator periods. -/
lemma findTriggered_congr (cache : IndicatorCache) :
    ∀ {rs1 rs2 : List BotRule},
      rs1.map BotRule.erasePeriod = rs2.map BotRule.erasePeriod → ∀ bar,
      (findTriggered cache rs1 bar).map BotRule.erasePeriod =
        (findTriggered cache rs2 bar).map BotRule.erasePeriod := by
  intro rs1
  induction rs1 with
  | nil =>
    intro rs2 h bar
    cases rs2 with
    | nil => rfl
    | cons _ _ => simp at h
  | cons r1 t1 ih =>
    intro rs2 h bar
    cases rs2 with
    | nil => simp at h
    | cons r2 t2 =>
      simp only [List.map_cons, List.cons.injEq] at h
      obtain ⟨hh, ht⟩ := h
      rw [findTriggered, findTriggered]
      have hen : r1.is_enabled = r2.is_enabled := by
        cases r1; cases r2
        simp only [BotRule.erasePeriod, BotRuleView.mk.injEq] at hh
        exact hh.2.2.2.2.2
      have hm : ruleMatches cache r1 bar = ruleMatches cache r2 bar :=
        ruleMatches_congr cache hh bar
      rw [hen, hm]
      by_cases he : r2.is_enabled
      · by_cases hma : ruleMatches cache r2 bar
        · simp [he, hma, hh]
        · simp [he, hma, ih ht bar]
      · simp [he, ih ht bar]

/-- The execution block reads only the action and order of the triggered
rule, so it is invariant under changing configured indicator periods. -/
lemma execStep_congr (st : SimState) {t1 t2 : Option BotRule}
    (h : t1.map BotRule.erasePeriod = t2.map BotRule.erasePeriod) (i : ℕ)
    (price : ℚ) : execStep st t1 i price = execStep st t2 i price := by
  cases t1 with
  | none =>
    cases t2 with
    | none => rfl
    | some _ => simp at h
  | some r1 =>
    cases t2 with
    | none => simp at h
    | some r2 =>
      have h' : r1.erasePeriod = r2.erasePeriod := by simpa using h
      cases r1
      cases r2
      simp only [BotRule.erasePeriod, BotRuleView.mk.injEq] at h'
      obtain ⟨h1, h2, h3, h4, h5, h6⟩ := h'
      subst h1 h2 h3 h4 h5 h6
      rfl

/-- The whole simulation is invariant under changing configured indicator
periods on the rules. -/
lemma simulate_bot_congr (bot_id duration_days : ℕ) (bal : ℚ)
    {rs1 rs2 : List BotRule}
    (h : rs1.map BotRule.erasePeriod = rs2.map BotRule.erasePeriod) :
    simulate_bot bot_id rs1 duration_days bal =
      simulate_bot bot_id rs2 duration_days bal := by
  rw [simulate_bot, simulate_bot]
  by_cases he : rs1.isEmpty
  · have he2 : rs2.isEmpty := by
      rw [List.isEmpty_iff] at he ⊢
      subst he
      cases rs2 with
      | nil => rfl
      | cons _ _ => simp at h
    rw [if_pos he, if_pos he2]
  · have he2 : ¬ rs2.isEmpty := by
      rw [List.isEmpty_iff] at he ⊢
      intro h2
      subst h2
      cases rs1 with
      | nil => exact he rfl
      | cons _ _ => simp at h
    rw [if_neg he, if_neg he2]
    have hbar : ∀ cache : IndicatorCache, barStep cache rs1 = barStep cache rs2 := by
      intro cache
      funext st i
      exact execStep_congr st (findTriggered_congr _ h i) i _
    simp only [hbar]

/-- C10: the simulation loop evaluates every rule with a hardcoded period —
20 when the rule's indicator is exactly `SMA` or `EMA`, 14 otherwise — and
consequently two rule lists that differ only in their configured indicator
periods produce identical simulation results. -/
theorem C10_hardcoded_periods (cache : IndicatorCache) (r : BotRule) (bar : ℕ)
    (bot_id duration_days : ℕ) (bal : ℚ) (rs1 rs2 : List BotRule)
    (hmap : rs1.map BotRule.erasePeriod = rs2.map BotRule.erasePeriod) :
    (ruleMatches cache r bar =
      RuleEvaluator.evaluate cache r.indicator r.operator (r.value.getD 0) (bar : ℤ)
        (if r.indicator = "SMA" ∨ r.indicator = "EMA" then 20 else 14)) ∧
    simulate_bot bot_id rs1 duration_days bal =
      simulate_bot bot_id rs2 duration_days bal :=
  ⟨rfl, simulate_bot_congr bot_id duration_days bal hmap⟩

/-- Witness for C10: two one-rule lists differing only in the configured
indicator period. -/
theorem C10_hardcoded_periods_witness :
    ([⟨1, "RSI", "<", some 30, "Buy", true, 14⟩] : List BotRule).map BotRule.erasePeriod =
      ([⟨1, "RSI", "<", some 30, "Buy", true, 99⟩] : List BotRule).map BotRule.erasePeriod ∧
    ((ruleMatches simCache1 ruleA 0 =
      RuleEvaluator.evaluate simCache1 ruleA.indicator ruleA.operator
        (ruleA.value.getD 0) ((0:ℕ) : ℤ)
        (if ruleA.indicator = "SMA" ∨ ruleA.indicator = "EMA" then 20 else 14)) ∧
    simulate_bot 1 [⟨1, "RSI", "<", some 30, "Buy", true, 14⟩] 1 10000 =
      simulate_bot 1 [⟨1, "RSI", "<", some 30, "Buy", true, 99⟩] 1 10000) :=
  ⟨by decide,
   C10_hardcoded_periods simCache1 ruleA 0 1 1 10000
     [⟨1, "RSI", "<", some 30, "Buy", true, 14⟩]
     [⟨1, "RSI", "<", some 30, "Buy", true, 99⟩] (by decide)⟩

/-- Rounding to four decimals over the reals is monotone. -/
lemma roundTo4R_mono {x y : ℝ} (h : x ≤ y) : roundTo4R x ≤ roundTo4R y := by
  unfold roundTo4R
  have h1 : round (x * 10 ^ 4) ≤ round (y * 10 ^ 4) := by
    rw [round_eq, round_eq]
    apply Int.floor_mono
    nlinarith
  gcongr

/-- Rounding to four decimals moves a real by at most `1 / 20000`. -/
lemma abs_roundTo4R_sub (x : ℝ) : |roundTo4R x - x| ≤ 1 / 20000 := by
  unfold roundTo4R
  have h : |x * 10 ^ 4 - round (x * 10 ^ 4)| ≤ 1 / 2 := abs_sub_round _
  rw [abs_le] at h ⊢
  constructor <;> [linarith [h.1, h.2]; linarith [h.1, h.2]]

/-- C6: for every price window of length at least `period` (positive period,
nonnegative band multiplier — the source default is 2), the Bollinger result
is defined with `lower ≤ middle ≤ upper`, and the middle band equals the SMA
of the same window up to the 4-decimal rounding (within `1 / 10000`). -/
theorem C6_bollinger_ordering (prices : List ℚ) (period : ℕ) (std_dev : ℚ)
    (hlen : period ≤ prices.length) (hsd : 0 ≤ std_dev) :
    ∃ b, IndicatorService.calculate_bollinger_bands prices period std_dev = some b ∧
      b.lower ≤ b.middle ∧ b.middle ≤ b.upper ∧
      ∃ s, IndicatorService.calculate_sma prices period = some s ∧
        |b.middle - (s : ℝ)| ≤ 1 / 10000 := by
  have hstd : 0 ≤ IndicatorService.bollingerStd prices period := Real.sqrt_nonneg _
  have hsd' : (0:ℝ) ≤ (std_dev : ℝ) := by exact_mod_cast hsd
  have hprod : 0 ≤ (std_dev : ℝ) * IndicatorService.bollingerStd prices period :=
    mul_nonneg hsd' hstd
  refine ⟨⟨roundTo4R (IndicatorService.bollingerUpper prices period std_dev),
      roundTo4R ((IndicatorService.bollingerMiddle prices period : ℚ) : ℝ),
      roundTo4R (IndicatorService.bollingerLower prices period std_dev),
      roundTo4R (if IndicatorService.bollingerMiddle prices period ≠ 0 then
        (IndicatorService.bollingerUpper prices period std_dev -
          IndicatorService.bollingerLower prices period std_dev) /
          ((IndicatorService.bollingerMiddle prices period : ℚ) : ℝ)
      else 0)⟩, ?_, ?_, ?_, ?_⟩
  · unfold IndicatorService.calculate_bollinger_bands
    rw [if_neg (by omega)]
  · apply roundTo4R_mono
    unfold IndicatorService.bollingerLower
    linarith
  · apply roundTo4R_mono
    unfold IndicatorService.bollingerUpper
    linarith
  · refine ⟨IndicatorService.bollingerMiddle prices period, ?_, ?_⟩
    · unfold IndicatorService.calculate_sma
      rw [if_neg (by omega)]
      rfl
    · have := abs_roundTo4R_sub ((IndicatorService.bollingerMiddle prices period : ℚ) : ℝ)
      calc |roundTo4R ((IndicatorService.bollingerMiddle prices period : ℚ) : ℝ) -
          ((IndicatorService.bollingerMiddle prices period : ℚ) : ℝ)| ≤ 1 / 20000 := this
      _ ≤ 1 / 10000 := by norm_num

/-- Witness for C6 at the two-price window `[1, 3]` with period 2. -/
theorem C6_bollinger_ordering_witness :
    2 ≤ ([1, 3] : List ℚ).length ∧ (0:ℚ) ≤ 2 ∧
    (∃ b, IndicatorService.calculate_bollinger_bands [1, 3] 2 2 = some b ∧
      b.lower ≤ b.middle ∧ b.middle ≤ b.upper ∧
      ∃ s, IndicatorService.calculate_sma [1, 3] 2 = some s ∧
        |b.middle - (s : ℝ)| ≤ 1 / 10000) :=
  ⟨by norm_num, by norm_num,
   C6_bollinger_ordering [1, 3] 2 2 (by norm_num) (by norm_num)⟩

namespace IndicatorService

/-- Length of the EMA series once enough data is present. -/
lemma calculate_ema_series_length {prices : List ℚ} {period : ℕ}
    (h : period ≤ prices.length) (smoothing : ℚ) :
    (calculate_ema_series prices period smoothing).length =
      prices.length - period + 1 := by
  unfold calculate_ema_series
  rw [if_neg (by omega)]
  simp only [List.length_scanl, List.length_drop]

/-- Length of the MACD series when `fast ≤ slow ≤ len`. -/
lemma macdSeries_length {prices : List ℚ} {f s : ℕ} (hfs : f ≤ s)
    (hs : s ≤ prices.length) :
    (macdSeries prices f s).length = prices.length - s + 1 := by
  unfold macdSeries
  rw [List.length_zipWith, List.length_drop,
    calculate_ema_series_length (le_trans hfs hs) 2,
    calculate_ema_series_length hs 2]
  omega

end IndicatorService

section MacdComputation

set_option allowUnsafeReducibility true
attribute [local semireducible] Rat.mul Rat.inv Rat.add Rat.sub
set_option maxRecDepth 8000

/-- The MACD of the 50 linearly increasing prices `100, ..., 149` with the
default periods, computed by kernel evaluation of the embedding. -/
lemma macd_linear_fifty :
    IndicatorService.calculate_macd ((List.range 50).map (fun i => (100:ℚ) + i))
      12 26 9 = some ⟨7, 7, 0⟩ := by
  decide

end MacdComputation

namespace IndicatorService

/-- C7: `calculate_macd` is defined exactly when there are at least
`slow_period + signal_period` prices (for positive periods with
`fast ≤ slow`, true of the source defaults 12/26/9), and on the 50 linearly
increasing prices `100, 101, ..., 149` (with the defaults) the returned
histogram equals the returned MACD line minus the returned signal line within
`1 / 10000`. -/
theorem C7_macd_availability (prices : List ℚ) (f s g : ℕ) (hf : 1 ≤ f)
    (hfs : f ≤ s) (hg : 1 ≤ g) :
    ((calculate_macd prices f s g).isSome ↔ s + g ≤ prices.length) ∧
    (∃ r, calculate_macd ((List.range 50).map (fun i => (100:ℚ) + i)) 12 26 9 =
        some r ∧ |r.histogram - (r.macd_line - r.signal_line)| ≤ 1 / 10000) := by
  constructor
  · constructor
    · intro hsome
      by_contra hlt
      rw [calculate_macd, if_pos (by omega)] at hsome
      simp at hsome
    · intro hlen
      have hsl : s ≤ prices.length := by omega
      have hfl : f ≤ prices.length := le_trans hfs hsl
      have hfast : ¬ (calculate_ema_series prices f 2).isEmpty := by
        rw [List.isEmpty_iff, ← List.length_eq_zero,
          calculate_ema_series_length hfl 2]
        omega
      have hslow : ¬ (calculate_ema_series prices s 2).isEmpty := by
        rw [List.isEmpty_iff, ← List.length_eq_zero,
          calculate_ema_series_length hsl 2]
        omega
      have hmlen : (macdSeries prices f s).length = prices.length - s + 1 :=
        macdSeries_length hfs hsl
      have hsig : ¬ (macdSignalSeries prices f s g).isEmpty := by
        rw [List.isEmpty_iff, ← List.length_eq_zero]
        unfold macdSignalSeries
        rw [calculate_ema_series_length (by omega) 2]
        omega
      rw [calculate_macd, if_neg (by omega), if_neg (by tauto),
        if_neg (by omega), if_neg (by simpa using hsig)]
      rfl
  · exact ⟨⟨7, 7, 0⟩, macd_linear_fifty, by norm_num⟩

end IndicatorService

/-- Witness for C7: ten prices are not enough for the defaults 12/26/9, and
the concrete 50-price check. -/
theorem C7_macd_availability_witness :
    1 ≤ 12 ∧ 12 ≤ 26 ∧ 1 ≤ 9 ∧
    (((IndicatorService.calculate_macd (List.replicate 10 (5:ℚ)) 12 26 9).isSome ↔
        26 + 9 ≤ (List.replicate 10 (5:ℚ)).length) ∧
     (∃ r, IndicatorService.calculate_macd
          ((List.range 50).map (fun i => (100:ℚ) + i)) 12 26 9 = some r ∧
        |r.histogram - (r.macd_line - r.signal_line)| ≤ 1 / 10000)) :=
  ⟨by decide, by decide, by decide,
   IndicatorService.C7_macd_availability (List.replicate 10 (5:ℚ)) 12 26 9
     (by decide) (by decide) (by decide)⟩
